import Mathlib

/-!
Verification of the nested-route resolution model of this repository: route
segments and their handlers, nearest-first boundary resolution, layout
composition, URL matching with dynamic parameter capture, the route tree
builder over directory-naming inputs, and the example layout and page
components shipped under `src/app`.

The repository ships the routing behaviour only as a documented model (the
README describes the framework's conventions; no builder, resolver or
composer is implemented in its sources), so those components are modelled
from the specification text.  The `UserLayout` and `AboutPage` components
are embedded directly from the repository's source files.
-/

/-- Modelled from the spec: the kind of a route segment — static, dynamic
`[x]`, catch-all `[...x]`, or optional catch-all `[[...x]]`.  The repository
documents this naming scheme but contains no implementation of it. -/
inductive SegmentKind where
  | static
  | dynamic
  | catchAll
  | optionalCatchAll
deriving DecidableEq

/-- Modelled from the spec: the optional handlers a route segment may carry
(page, layout, loading, error, not-found).  Handlers are identified by
natural numbers since only their identity matters to resolution. -/
structure Handlers where
  page : Option Nat
  layout : Option Nat
  loading : Option Nat
  error : Option Nat
  notFound : Option Nat
deriving DecidableEq

/-- Modelled from the spec: a boundary kind (loading, error, not-found). -/
inductive BoundaryKind where
  | loading
  | error
  | notFound
deriving DecidableEq

/-- Modelled from the spec: the fatal configuration and rendering errors of
the route model. -/
inductive RouteError where
  | ConflictingRoute
  | NoBoundaryDefined
  | HandlerFailure
  | NotFoundSignal
deriving DecidableEq

/-- Modelled from the spec: a route segment — kind, name, ordered list of
child segments, and its optional handlers.  The repository ships no segment
type; this follows the spec's data model section. -/
inductive RouteSegment where
  | mk : SegmentKind → List Char → List RouteSegment → Handlers → RouteSegment

def RouteSegment.kind : RouteSegment → SegmentKind
  | .mk k _ _ _ => k

def RouteSegment.name : RouteSegment → List Char
  | .mk _ n _ _ => n

def RouteSegment.children : RouteSegment → List RouteSegment
  | .mk _ _ cs _ => cs

def RouteSegment.handlers : RouteSegment → Handlers
  | .mk _ _ _ hs => hs

/-- Modelled from the spec: a captured dynamic parameter value — a single
string for a dynamic segment, a list of strings for a catch-all segment. -/
inductive ParamValue where
  | one : List Char → ParamValue
  | many : List (List Char) → ParamValue
deriving DecidableEq

/-- Modelled from the spec: the result of matching a URL path against the
tree — the ordered list of segments traversed plus the captured dynamic
parameters. -/
structure ResolvedRoute where
  segments : List RouteSegment
  params : List (List Char × ParamValue)

/-- Characters of a string literal, the representation used for segment
names and URL path parts. -/
def nm (s : String) : List Char := s.data

/-- Handler of the given boundary kind carried by a segment, if any. -/
def boundaryOf (s : RouteSegment) (k : BoundaryKind) : Option Nat :=
  match k with
  | .loading => s.handlers.loading
  | .error => s.handlers.error
  | .notFound => s.handlers.notFound

/-- Modelled from the spec: walk a deepest-first list of segments upward,
returning the number of upward steps taken together with the first handler
of the requested kind, or `NoBoundaryDefined` when the walk passes the root
without finding one.  The repository ships no boundary resolver. -/
def walkUp : List RouteSegment → BoundaryKind → Nat × Except RouteError Nat
  | [], _ => (0, .error RouteError.NoBoundaryDefined)
  | s :: rest, k =>
    match boundaryOf s k with
    | some h => (0, .ok h)
    | none => ((walkUp rest k).1 + 1, (walkUp rest k).2)

/-- Modelled from the spec: boundary resolution for a resolved route walks
from the deepest matched segment up to the root. -/
def resolveBoundary (r : ResolvedRoute) (k : BoundaryKind) : Except RouteError Nat :=
  (walkUp r.segments.reverse k).2

/-- Number of upward steps taken by boundary resolution. -/
def resolveSteps (r : ResolvedRoute) (k : BoundaryKind) : Nat :=
  (walkUp r.segments.reverse k).1

/-- Modelled from the spec: rendered output — a page content value wrapped
by zero or more layout handlers. -/
inductive Rendered where
  | content : Nat → Rendered
  | wrap : Nat → Rendered → Rendered
deriving DecidableEq

/-- Modelled from the spec: the ordered sequence of layout handlers of a
resolved route, from root to leaf. -/
def layoutChain (r : ResolvedRoute) : List Nat :=
  r.segments.filterMap (fun s => s.handlers.layout)

/-- Modelled from the spec: layout composition — each layout handler wraps
the next-inner composed output, the root layout outermost. -/
def composeLayouts (r : ResolvedRoute) (inner : Rendered) : Rendered :=
  (layoutChain r).foldr Rendered.wrap inner

/-- The wrapping layout handlers of a rendered value, outermost first. -/
def wrapSeq : Rendered → List Nat
  | .content _ => []
  | .wrap l rest => l :: wrapSeq rest

/-- The innermost content of a rendered value, below all layout wraps. -/
def innerContent : Rendered → Rendered
  | .content c => .content c
  | .wrap _ rest => innerContent rest

mutual

/-- Depth of a route segment tree: one plus the largest child depth. -/
def RouteSegment.depth : RouteSegment → Nat
  | .mk _ _ cs _ => 1 + depthList cs

/-- Largest depth among a list of route segments (zero when empty). -/
def depthList : List RouteSegment → Nat
  | [] => 0
  | c :: rest => max c.depth (depthList rest)

end

mutual

/-- Modelled from the spec: match URL path parts against a segment subtree,
producing the ordered list of segments traversed and the captured dynamic
parameters.  The segment itself always heads the traversed list; on
exhausted parts the segment must carry a page handler (otherwise an
optional catch-all child may still take the empty remainder).  The
repository ships no matcher. -/
def matchSeg : RouteSegment → List (List Char) →
    Option (List RouteSegment × List (List Char × ParamValue))
  | .mk k n cs hs, parts =>
    if parts.isEmpty && hs.page.isSome then some ([.mk k n cs hs], [])
    else
      match matchChildren cs parts with
      | some r => some (.mk k n cs hs :: r.1, r.2)
      | none => none

/-- Modelled from the spec: try each child segment in order; a static child
consumes a part equal to its name, a dynamic child captures one part, a
catch-all child captures one or more remaining parts, an optional catch-all
child captures zero or more. -/
def matchChildren : List RouteSegment → List (List Char) →
    Option (List RouteSegment × List (List Char × ParamValue))
  | [], _ => none
  | c :: rest, parts =>
    let tryC : Option (List RouteSegment × List (List Char × ParamValue)) :=
      match c.kind, parts with
      | .static, p :: ps => if c.name = p then matchSeg c ps else none
      | .dynamic, p :: ps =>
        match matchSeg c ps with
        | some r => some (r.1, (c.name, ParamValue.one p) :: r.2)
        | none => none
      | .catchAll, p :: ps =>
        if c.handlers.page.isSome then some ([c], [(c.name, ParamValue.many (p :: ps))])
        else none
      | .optionalCatchAll, ps =>
        if c.handlers.page.isSome then some ([c], [(c.name, ParamValue.many ps)])
        else none
      | _, [] => none
    match tryC with
    | some r => some r
    | none => matchChildren rest parts

end

/-- Modelled from the spec: route resolution — match the URL path against
the tree and package the traversed segments with the captured parameters
into a `ResolvedRoute`. -/
def resolveRoute (t : RouteSegment) (parts : List (List Char)) : Option ResolvedRoute :=
  match matchSeg t parts with
  | some r => some ⟨r.1, r.2⟩
  | none => none

/-- Modelled from the spec: the root segment is required to define fallback
loading/error/not-found handlers; this installs the implicit default for
every boundary kind that is absent. -/
def ensureDefault : RouteSegment → Nat → RouteSegment
  | .mk k n cs hs, d =>
    .mk k n cs
      ⟨hs.page, hs.layout,
        some (hs.loading.getD d), some (hs.error.getD d), some (hs.notFound.getD d)⟩

/-- Modelled from the spec: strip one pair of enclosing square brackets
from a raw directory name, if present. -/
def stripB : List Char → Option (List Char)
  | [] => none
  | c0 :: rest =>
    if c0 = '[' then
      match rest.reverse with
      | c1 :: mid => if c1 = ']' then some mid.reverse else none
      | [] => none
    else none

/-- Modelled from the spec: parse a raw directory name into a segment kind
and inner name — single brackets denote a dynamic capture, a leading `...`
inside brackets denotes a catch-all, double brackets with `...` denote an
optional catch-all, and anything else is a static name. -/
def parseSeg (cs : List Char) : SegmentKind × List Char :=
  match stripB cs with
  | none => (SegmentKind.static, cs)
  | some inner =>
    match stripB inner with
    | some inner2 =>
      if inner2.take 3 = ['.', '.', '.'] then (SegmentKind.optionalCatchAll, inner2.drop 3)
      else (SegmentKind.static, cs)
    | none =>
      if inner.take 3 = ['.', '.', '.'] then (SegmentKind.catchAll, inner.drop 3)
      else (SegmentKind.dynamic, inner)

/-- The raw directory name denoting a segment kind and inner name, inverse
of `parseSeg`. -/
def rawName : SegmentKind → List Char → List Char
  | SegmentKind.static, n => n
  | SegmentKind.dynamic, n => '[' :: (n ++ [']'])
  | SegmentKind.catchAll, n => '[' :: '.' :: '.' :: '.' :: (n ++ [']'])
  | SegmentKind.optionalCatchAll, n => '[' :: '[' :: '.' :: '.' :: '.' :: (n ++ [']', ']'])

/-- Modelled from the spec: a nested directory-naming input — a raw
directory name, the handler files present in that directory, and the nested
subdirectories.  The repository supplies such inputs only through its
project layout. -/
inductive DirTree where
  | node : List Char → Handlers → List DirTree → DirTree

def DirTree.rawSeg : DirTree → List Char
  | .node raw _ _ => raw

def DirTree.handlers : DirTree → Handlers
  | .node _ hs _ => hs

def DirTree.children : DirTree → List DirTree
  | .node _ _ cs => cs

/-- The static names claimed by a list of sibling directory entries. -/
def staticNames (ds : List DirTree) : List (List Char) :=
  ds.filterMap (fun d =>
    match parseSeg d.rawSeg with
    | (SegmentKind.static, n2) => some n2
    | _ => none)

mutual

/-- Modelled from the spec: the route tree builder — turn a directory
description into a segment tree, rejecting sibling segments that claim the
same static name with `ConflictingRoute` at build time.  The repository
ships no builder. -/
def buildSeg : DirTree → Except RouteError RouteSegment
  | .node raw hs cs =>
    if (staticNames cs).Nodup then
      match buildList cs with
      | .ok ts => .ok (.mk (parseSeg raw).1 (parseSeg raw).2 ts hs)
      | .error e => .error e
    else .error RouteError.ConflictingRoute

/-- Build each sibling directory entry in order, propagating the first
build-time error. -/
def buildList : List DirTree → Except RouteError (List RouteSegment)
  | [] => .ok []
  | d :: ds =>
    match buildSeg d with
    | .ok t =>
      match buildList ds with
      | .ok ts => .ok (t :: ts)
      | .error e => .error e
    | .error e => .error e

end

mutual

/-- Traverse a built segment tree from root to leaves, reconstructing the
declared directory description from each segment's kind and name. -/
def rebuildDir : RouteSegment → DirTree
  | .mk k n ts hs => .node (rawName k n) hs (rebuildList ts)

/-- Traverse a list of built segments, reconstructing the declared sibling
directory entries. -/
def rebuildList : List RouteSegment → List DirTree
  | [] => []
  | t :: ts => rebuildDir t :: rebuildList ts

end

mutual

/-- Number of segments in a built tree. -/
def segCount : RouteSegment → Nat
  | .mk _ _ cs _ => 1 + segCountList cs

def segCountList : List RouteSegment → Nat
  | [] => 0
  | t :: ts => segCount t + segCountList ts

end

mutual

/-- Number of declared path components in a directory description. -/
def dirCount : DirTree → Nat
  | .node _ _ cs => 1 + dirCountList cs

def dirCountList : List DirTree → Nat
  | [] => 0
  | d :: ds => dirCount d + dirCountList ds

end

mutual

/-- A directory description contains, at some level, two sibling entries
claiming the same static name. -/
def dirHasConflict : DirTree → Prop
  | .node _ _ cs => ¬ (staticNames cs).Nodup ∨ listHasConflict cs

def listHasConflict : List DirTree → Prop
  | [] => False
  | d :: ds => dirHasConflict d ∨ listHasConflict ds

end

/-- A rendered UI node: a text node, an element with a tag, attributes and
child nodes, or an opaque embedded value (used for the `children` prop and
for imported components).  Embeds the JSX trees of the repository's
components. -/
inductive Node (α : Type) where
  | text : List Char → Node α
  | elem : List Char → List (List Char × List Char) → List (Node α) → Node α
  | hole : α → Node α

mutual

/-- Number of opaque embedded values occurring in a node. -/
def countHole {α : Type} : Node α → Nat
  | .text _ => 0
  | .hole _ => 1
  | .elem _ _ cs => countHoleList cs

/-- Number of opaque embedded values occurring in a list of nodes. -/
def countHoleList {α : Type} : List (Node α) → Nat
  | [] => 0
  | c :: rest => countHole c + countHoleList rest

end

/-- The `UserLayout` component of `src/app/users/layout.tsx`: a div holding
a styled heading and an inner div that renders the `children` prop. -/
def UserLayout {α : Type} (children : Node α) : Node α :=
  .elem (nm "div") []
    [.elem (nm "h1") [(nm "className", nm "text-3xl text-orange-600")]
      [.text (nm "This is route from user")],
     .elem (nm "div") [] [children]]

/-- A server-side log entry: a logged data value or a logged message. -/
inductive LogEntry (β : Type) where
  | value : β → LogEntry β
  | message : List Char → LogEntry β

/-- The `AboutPage` component of the unnamed source file: it fetches the
posts endpoint, logs the parsed response and the string `About Page` on the
server, and renders a heading containing the text `About page ` and the
imported `ButtonComponent`.  The fetched `posts` value and the button node
(whose source file is absent from the repository) are parameters; the
result pairs the log output with the rendered node. -/
def AboutPage {α β : Type} (button : Node α) (posts : β) :
    List (LogEntry β) × Node α :=
  ([LogEntry.value posts, LogEntry.message (nm "About Page")],
   .elem (nm "h1") [] [.text (nm "About page "), button])

/-- Example dynamic segment `[id]` with a page handler, as in the spec's
`/users/42` scenario. -/
def demoId : RouteSegment :=
  .mk .dynamic (nm "id") [] ⟨some 3, none, none, none, none⟩

/-- Example static segment `users` with page, layout and loading handlers. -/
def demoUsers : RouteSegment :=
  .mk .static (nm "users") [demoId] ⟨some 2, some 11, some 21, none, none⟩

/-- Example root segment with page, layout and loading handlers. -/
def demoRoot : RouteSegment :=
  .mk .static (nm "") [demoUsers] ⟨some 1, some 10, some 20, none, none⟩

/-- The parameters captured when resolving `/users/42` in the example
tree. -/
def demoParams : List (List Char × ParamValue) := [(nm "id", ParamValue.one (nm "42"))]

/-- The resolved route for `/users/42` in the example tree. -/
def demoResolved : ResolvedRoute := ⟨[demoRoot, demoUsers, demoId], demoParams⟩

/-- Directory description for the `[id]` directory of the example. -/
def demoDirId : DirTree := .node (nm "[id]") ⟨some 3, none, none, none, none⟩ []

/-- Directory description for the `users` directory of the example. -/
def demoDirUsers : DirTree :=
  .node (nm "users") ⟨some 2, some 11, some 21, none, none⟩ [demoDirId]

/-- Directory description for the example application root. -/
def demoDir : DirTree :=
  .node (nm "") ⟨some 1, some 10, some 20, none, none⟩ [demoDirUsers]

/-- Example tree with a loading handler only at the root. -/
def onlyRootId : RouteSegment :=
  .mk .dynamic (nm "id") [] ⟨some 3, none, none, none, none⟩

/-- Example `users` segment without any boundary handler. -/
def onlyRootUsers : RouteSegment :=
  .mk .static (nm "users") [onlyRootId] ⟨some 2, none, none, none, none⟩

/-- Example root whose loading handler is the only one in the tree. -/
def onlyRootRoot : RouteSegment :=
  .mk .static (nm "") [onlyRootUsers] ⟨some 1, none, some 20, none, none⟩

/-- A directory description in which two sibling directories claim the same
static name `users`. -/
def conflictDir : DirTree :=
  .node (nm "") ⟨some 1, none, none, none, none⟩
    [.node (nm "users") ⟨some 2, none, none, none, none⟩ [],
     .node (nm "users") ⟨some 4, none, none, none, none⟩ []]

theorem walkUp_snd_append_none (l1 l2 : List RouteSegment) (k : BoundaryKind)
    (h : ∀ s ∈ l1, boundaryOf s k = none) :
    (walkUp (l1 ++ l2) k).2 = (walkUp l2 k).2 := by
  induction l1 with
  | nil => rfl
  | cons s rest ih =>
    have hs : boundaryOf s k = none := h s (by simp)
    simpa [walkUp, hs] using ih (fun x hx => h x (by simp [hx]))

theorem walkUp_fst_le (l : List RouteSegment) (k : BoundaryKind) :
    (walkUp l k).1 ≤ l.length := by
  induction l with
  | nil => simp [walkUp]
  | cons s rest ih =>
    cases hb : boundaryOf s k with
    | some h => simp [walkUp, hb]
    | none =>
      simp only [walkUp, hb, List.length_cons]
      omega

theorem walkUp_error_only (l : List RouteSegment) (k : BoundaryKind) (e : RouteError)
    (h : (walkUp l k).2 = .error e) : e = RouteError.NoBoundaryDefined := by
  induction l with
  | nil => simpa [walkUp] using h.symm
  | cons s rest ih =>
    cases hb : boundaryOf s k with
    | some h2 => simp [walkUp, hb] at h
    | none =>
      simp only [walkUp, hb] at h
      exact ih h

theorem walkUp_error_iff (l : List RouteSegment) (k : BoundaryKind) :
    (walkUp l k).2 = .error RouteError.NoBoundaryDefined ↔
      ∀ s ∈ l, boundaryOf s k = none := by
  induction l with
  | nil => simp [walkUp]
  | cons s rest ih =>
    cases hb : boundaryOf s k with
    | some h2 =>
      simp only [walkUp, hb]
      constructor
      · intro hcontra; simp at hcontra
      · intro hall
        exact absurd (hall s (by simp)) (by simp [hb])
    | none =>
      simp only [walkUp, hb, ih]
      constructor
      · intro hall s2 hs2
        rcases List.mem_cons.mp hs2 with h1 | h1
        · simpa [h1] using hb
        · exact hall s2 h1
      · intro hall s2 hs2
        exact hall s2 (by simp [hs2])

theorem walkUp_ok_of_mem (l : List RouteSegment) (k : BoundaryKind)
    (s : RouteSegment) (h : Nat) (hm : s ∈ l) (hb : boundaryOf s k = some h) :
    ∃ h2, (walkUp l k).2 = .ok h2 := by
  cases he : (walkUp l k).2 with
  | ok a => exact ⟨a, rfl⟩
  | error e =>
    have he2 := walkUp_error_only l k e he
    subst he2
    have := (walkUp_error_iff l k).mp he s hm
    simp [this] at hb

/-- Claim C1: for every route tree and resolved route, boundary resolution
for a boundary kind returns the handler of the deepest matched segment that
defines one — deeper definitions shadow shallower ones. -/
theorem boundary_nearest_wins (pre post : List RouteSegment) (s : RouteSegment)
    (prm : List (List Char × ParamValue)) (k : BoundaryKind) (h : Nat)
    (hdef : boundaryOf s k = some h)
    (hdeeper : ∀ s2 ∈ post, boundaryOf s2 k = none) :
    resolveBoundary ⟨pre ++ s :: post, prm⟩ k = .ok h := by
  show (walkUp (pre ++ s :: post).reverse k).2 = .ok h
  have hrev : (pre ++ s :: post).reverse = post.reverse ++ s :: pre.reverse := by
    simp
  rw [hrev, walkUp_snd_append_none post.reverse (s :: pre.reverse) k
    (fun x hx => hdeeper x (List.mem_reverse.mp hx))]
  simp [walkUp, hdef]

/-- Claim C1 witness: with loading handlers at both the root and the
`users` segment, resolving the loading boundary for `/users/42` returns the
`users` handler — nearest wins. -/
theorem boundary_nearest_wins_witness :
    resolveBoundary ⟨[demoRoot, demoUsers, demoId], demoParams⟩ .loading = .ok 21 :=
  boundary_nearest_wins [demoRoot] [demoId] demoUsers demoParams .loading 21
    (by rfl)
    (by intro s2 hs2
        simp only [List.mem_singleton] at hs2
        simp [hs2, boundaryOf, demoId, RouteSegment.handlers])

/-- Claim C2: boundary resolution returns a handler whenever the root
segment defines one of the requested kind; when in addition no deeper
segment defines one it returns exactly the root's handler; and it signals
`NoBoundaryDefined` exactly when no traversed segment defines a handler of
the requested kind. -/
theorem boundary_root_default (segs : List RouteSegment)
    (prm : List (List Char × ParamValue)) (k : BoundaryKind) :
    (∀ s0 h0, segs.head? = some s0 → boundaryOf s0 k = some h0 →
      ∃ h2, resolveBoundary ⟨segs, prm⟩ k = .ok h2) ∧
    (∀ s0 h0, segs.head? = some s0 → boundaryOf s0 k = some h0 →
      (∀ s2 ∈ segs.tail, boundaryOf s2 k = none) →
      resolveBoundary ⟨segs, prm⟩ k = .ok h0) ∧
    (resolveBoundary ⟨segs, prm⟩ k = .error RouteError.NoBoundaryDefined ↔
      ∀ s ∈ segs, boundaryOf s k = none) := by
  refine ⟨?_, ?_, ?_⟩
  · intro s0 h0 hhead hb
    exact walkUp_ok_of_mem segs.reverse k s0 h0
      (List.mem_reverse.mpr (List.mem_of_mem_head? hhead)) hb
  · intro s0 h0 hhead hb htail
    cases segs with
    | nil => simp at hhead
    | cons s1 rest =>
      have hs1 : s1 = s0 := by simpa using hhead
      subst hs1
      show (walkUp (s1 :: rest).reverse k).2 = .ok h0
      have hrev : (s1 :: rest).reverse = rest.reverse ++ s1 :: ([] : List RouteSegment) := by
        simp
      rw [hrev, walkUp_snd_append_none rest.reverse (s1 :: []) k
        (fun x hx => htail x (by simpa using List.mem_reverse.mp hx))]
      simp [walkUp, hb]
  · show (walkUp segs.reverse k).2 = .error RouteError.NoBoundaryDefined ↔ _
    rw [walkUp_error_iff]
    constructor
    · intro hall s hs; exact hall s (List.mem_reverse.mpr hs)
    · intro hall s hs; exact hall s (List.mem_reverse.mp hs)

/-- Claim C2 witness: with a loading handler only at the root, resolving
the loading boundary for `/users/42` returns the root's handler. -/
theorem boundary_root_default_witness :
    resolveBoundary ⟨[onlyRootRoot, onlyRootUsers, onlyRootId], demoParams⟩ .loading =
      .ok 20 :=
  (boundary_root_default [onlyRootRoot, onlyRootUsers, onlyRootId] demoParams .loading).2.1
    onlyRootRoot 20 (by rfl) (by rfl)
    (by intro s2 hs2
        simp only [List.tail_cons, List.mem_cons, List.not_mem_nil, or_false] at hs2
        rcases hs2 with h1 | h1 <;>
          simp [h1, boundaryOf, onlyRootUsers, onlyRootId, RouteSegment.handlers])

theorem wrapSeq_foldr (ls : List Nat) (inner : Rendered) :
    wrapSeq (ls.foldr Rendered.wrap inner) = ls ++ wrapSeq inner := by
  induction ls with
  | nil => simp
  | cons l rest ih => simp [wrapSeq, ih]

theorem innerContent_foldr (ls : List Nat) (inner : Rendered) :
    innerContent (ls.foldr Rendered.wrap inner) = innerContent inner := by
  induction ls with
  | nil => simp
  | cons l rest ih => simp [innerContent, ih]

/-- Claim C3: layout composition produces the ordered sequence of layout
handlers of the resolved route from root to leaf, outermost first, each
wrapping the next-inner composed output; for `/users/42` with layouts at
the root and at `users` the produced order is root layout first, then the
`users` layout, around the page content. -/
theorem layout_composition_order :
    (∀ (r : ResolvedRoute) (inner : Rendered),
      wrapSeq (composeLayouts r inner) = layoutChain r ++ wrapSeq inner ∧
      innerContent (composeLayouts r inner) = innerContent inner) ∧
    layoutChain demoResolved = [10, 11] ∧
    composeLayouts demoResolved (.content 9) =
      .wrap 10 (.wrap 11 (.content 9)) := by
  refine ⟨fun r inner => ⟨wrapSeq_foldr _ _, innerContent_foldr _ _⟩, ?_, ?_⟩ <;> rfl

/-- Claim C5: matching the URL path `/users/42` against the tree with
segments `/`, `/users` and the dynamic segment `/users/[id]` produces a
resolved route whose captured parameters bind `id` to the string `42`. -/
theorem match_users42_binds_id :
    resolveRoute demoRoot [nm "users", nm "42"] =
      some ⟨[demoRoot, demoUsers, demoId], [(nm "id", ParamValue.one (nm "42"))]⟩ := by
  rfl

theorem RouteSegment.inductOn {P : RouteSegment → Prop}
    (step : ∀ k n cs hs, (∀ c ∈ cs, P c) → P (.mk k n cs hs)) :
    ∀ s, P s
  | .mk k n cs hs => step k n cs hs (fun c hc => RouteSegment.inductOn step c)
termination_by s => sizeOf s
decreasing_by
  have h1 := List.sizeOf_lt_of_mem hc
  simp only [RouteSegment.mk.sizeOf_spec]
  omega

theorem depth_pos (s : RouteSegment) : 1 ≤ s.depth := by
  rcases s with ⟨k, n, cs, hs⟩
  simp [RouteSegment.depth]

theorem depth_le_depthList {c : RouteSegment} {cs : List RouteSegment}
    (hc : c ∈ cs) : c.depth ≤ depthList cs := by
  induction cs with
  | nil => simp at hc
  | cons a rest ih =>
    rcases List.mem_cons.mp hc with h1 | h1
    · subst h1; exact le_max_left _ _
    · exact le_trans (ih h1) (le_max_right _ _)


theorem matchChildren_length (cs : List RouteSegment) (parts : List (List Char))
    (segs : List RouteSegment) (prm : List (List Char × ParamValue))
    (IH : ∀ c ∈ cs, ∀ parts2 segs2 prm2,
      matchSeg c parts2 = some (segs2, prm2) → segs2.length ≤ c.depth)
    (h : matchChildren cs parts = some (segs, prm)) :
    segs.length ≤ depthList cs := by
  induction cs with
  | nil => simp [matchChildren] at h
  | cons c rest ih =>
    have IHc : ∀ parts2 segs2 prm2, matchSeg c parts2 = some (segs2, prm2) →
        segs2.length ≤ c.depth := IH c (by simp)
    have IHrest : ∀ c2 ∈ rest, ∀ parts2 segs2 prm2,
        matchSeg c2 parts2 = some (segs2, prm2) → segs2.length ≤ c2.depth :=
      fun c2 hc2 => IH c2 (by simp [hc2])
    have hgoal : depthList (c :: rest) = max c.depth (depthList rest) := rfl
    rw [hgoal]
    simp only [matchChildren] at h
    split at h
    · rename_i r heq
      have hr : r = (segs, prm) := by simpa using h
      subst hr
      refine le_trans ?_ (le_max_left _ _)
      split at heq
      · split at heq
        · exact IHc _ segs prm (by simpa using heq)
        · simp at heq
      · split at heq
        · rename_i r2 hm
          have hpair : (r2.1, _) = (segs, prm) := Option.some.inj heq
          have h1 : r2.1 = segs := congrArg Prod.fst hpair
          rw [← h1]
          exact IHc _ r2.1 r2.2 (by simpa using hm)
        · simp at heq
      · split at heq
        · have hpair : ([c], _) = (segs, prm) := Option.some.inj heq
          have h1 : segs = [c] := (congrArg Prod.fst hpair).symm
          rw [h1]
          simpa using depth_pos c
        · simp at heq
      · split at heq
        · have hpair : ([c], _) = (segs, prm) := Option.some.inj heq
          have h1 : segs = [c] := (congrArg Prod.fst hpair).symm
          rw [h1]
          simpa using depth_pos c
        · simp at heq
      · simp at heq
    · rename_i heq
      exact le_trans (ih IHrest h) (le_max_right _ _)

theorem matchSeg_length (s : RouteSegment) :
    ∀ parts segs prm, matchSeg s parts = some (segs, prm) → segs.length ≤ s.depth := by
  induction s using RouteSegment.inductOn with
  | step k n cs hs IH =>
    intro parts segs prm h
    have hd : (RouteSegment.mk k n cs hs).depth = 1 + depthList cs := rfl
    rw [hd]
    simp only [matchSeg] at h
    split at h
    · have hpair : ([RouteSegment.mk k n cs hs], ([] : List (List Char × ParamValue))) =
          (segs, prm) := Option.some.inj h
      have h1 : segs = [RouteSegment.mk k n cs hs] := (congrArg Prod.fst hpair).symm
      rw [h1]
      simp
    · split at h
      · rename_i r heq
        have hpair : (RouteSegment.mk k n cs hs :: r.1, r.2) = (segs, prm) :=
          Option.some.inj h
        have h1 : segs = RouteSegment.mk k n cs hs :: r.1 := (congrArg Prod.fst hpair).symm
        rw [h1]
        have h2 : r.1.length ≤ depthList cs :=
          matchChildren_length cs parts r.1 r.2
            (fun c hc2 => IH c hc2) (by simpa using heq)
        simp only [List.length_cons]
        omega
      · simp at h

theorem ensureDefault_boundary (s : RouteSegment) (d : Nat) (k : BoundaryKind) :
    (boundaryOf (ensureDefault s d) k).isSome := by
  rcases s with ⟨sk, sn, scs, shs⟩
  cases k <;> simp [ensureDefault, boundaryOf, RouteSegment.handlers]

/-- Claim C7: boundary resolution terminates and the number of upward steps
it takes on a resolved route never exceeds the depth of the matched tree;
moreover, when the root segment carries the required fallback handlers (the
implicit default installed when absent), resolution always returns a
handler. -/
theorem boundary_resolution_steps_bounded (t : RouteSegment)
    (parts : List (List Char)) (segs : List RouteSegment)
    (prm : List (List Char × ParamValue)) (k : BoundaryKind)
    (hm : matchSeg t parts = some (segs, prm)) :
    resolveSteps ⟨segs, prm⟩ k ≤ t.depth ∧
    ∀ (d : Nat) (rest : List RouteSegment) (prm2 : List (List Char × ParamValue))
      (k2 : BoundaryKind),
      ∃ h2, resolveBoundary ⟨ensureDefault t d :: rest, prm2⟩ k2 = .ok h2 := by
  constructor
  · calc resolveSteps ⟨segs, prm⟩ k = (walkUp segs.reverse k).1 := rfl
      _ ≤ segs.reverse.length := walkUp_fst_le _ _
      _ = segs.length := by simp
      _ ≤ t.depth := matchSeg_length t parts segs prm hm
  · intro d rest prm2 k2
    obtain ⟨h0, hh0⟩ := Option.isSome_iff_exists.mp (ensureDefault_boundary t d k2)
    exact walkUp_ok_of_mem _ k2 (ensureDefault t d) h0 (by simp) hh0

/-- Claim C7 witness: the bound instantiated for `/users/42` in the example
tree and the loading boundary. -/
theorem boundary_resolution_steps_bounded_witness :
    resolveSteps ⟨[demoRoot, demoUsers, demoId], demoParams⟩ .loading ≤ demoRoot.depth :=
  (boundary_resolution_steps_bounded demoRoot [nm "users", nm "42"]
    [demoRoot, demoUsers, demoId] demoParams .loading (by rfl)).1

/-- Claim C8: route resolution is a pure function of the tree and the URL
path — two resolutions of the same path over the same tree yield identical
resolved routes. -/
theorem route_resolution_deterministic (t : RouteSegment) (parts : List (List Char))
    (r1 r2 : ResolvedRoute)
    (h1 : resolveRoute t parts = some r1) (h2 : resolveRoute t parts = some r2) :
    r1 = r2 := by
  rw [h1] at h2
  exact Option.some.inj h2

/-- Claim C8 witness: determinism instantiated at the example tree and the
path `/users/42`. -/
theorem route_resolution_deterministic_witness :
    (⟨[demoRoot, demoUsers, demoId], demoParams⟩ : ResolvedRoute) =
      ⟨[demoRoot, demoUsers, demoId], demoParams⟩ :=
  route_resolution_deterministic demoRoot [nm "users", nm "42"] _ _ (by rfl) (by rfl)

theorem stripB_eq_some {cs inner : List Char} (h : stripB cs = some inner) :
    cs = '[' :: (inner ++ [']']) := by
  rcases cs with _ | ⟨c0, rest⟩
  · simp [stripB] at h
  · simp only [stripB] at h
    split at h
    · rename_i hc0
      subst hc0
      split at h
      · rename_i c1 mid hrev
        split at h
        · rename_i hc1
          subst hc1
          have hinner : inner = mid.reverse := (Option.some.inj h).symm
          have hrest : rest = mid.reverse ++ [']'] := by
            have := congrArg List.reverse hrev
            simpa using this
          rw [hrest, hinner]
        · simp at h
      · simp at h
    · simp at h

theorem stripB_wrap (l : List Char) : stripB ('[' :: (l ++ [']'])) = some l := by
  simp [stripB]

theorem take_append_drop_three {l : List Char} (h : l.take 3 = ['.', '.', '.']) :
    l = '.' :: '.' :: '.' :: l.drop 3 := by
  conv_lhs => rw [← List.take_append_drop 3 l, h]
  rfl

theorem rawName_parseSeg (raw : List Char) :
    rawName (parseSeg raw).1 (parseSeg raw).2 = raw := by
  rcases h1 : stripB raw with _ | inner
  · rw [parseSeg]
    simp only [h1]
    simp [rawName]
  · have e1 : raw = '[' :: (inner ++ [']']) := stripB_eq_some h1
    rcases h2 : stripB inner with _ | inner2
    · by_cases h3 : inner.take 3 = ['.', '.', '.']
      · rw [parseSeg]
        simp only [h1, h2]
        rw [if_pos h3]
        simp only [rawName]
        conv_rhs => rw [e1, take_append_drop_three h3]
        simp
      · rw [parseSeg]
        simp only [h1, h2]
        rw [if_neg h3]
        simp only [rawName]
        exact e1.symm
    · have e2 : inner = '[' :: (inner2 ++ [']']) := stripB_eq_some h2
      by_cases h3 : inner2.take 3 = ['.', '.', '.']
      · rw [parseSeg]
        simp only [h1, h2]
        rw [if_pos h3]
        simp only [rawName]
        conv_rhs => rw [e1, e2, take_append_drop_three h3]
        simp
      · rw [parseSeg]
        simp only [h1, h2]
        rw [if_neg h3]
        simp only [rawName]

mutual

theorem buildSeg_rebuild : ∀ (d : DirTree) (t : RouteSegment),
    buildSeg d = .ok t → rebuildDir t = d
  | .node raw hs cs, t, h => by
    simp only [buildSeg] at h
    split at h
    · split at h
      · rename_i ts hts
        have ht : t = .mk (parseSeg raw).1 (parseSeg raw).2 ts hs := (Except.ok.inj h).symm
        subst ht
        simp only [rebuildDir]
        rw [rawName_parseSeg, buildList_rebuild cs ts hts]
      · exact absurd h (by simp)
    · exact absurd h (by simp)

theorem buildList_rebuild : ∀ (ds : List DirTree) (ts : List RouteSegment),
    buildList ds = .ok ts → rebuildList ts = ds
  | [], ts, h => by
    simp only [buildList] at h
    have h2 : ts = [] := (Except.ok.inj h).symm
    subst h2
    rfl
  | d :: ds, ts, h => by
    simp only [buildList] at h
    split at h
    · rename_i t ht
      split at h
      · rename_i ts2 hts2
        have h2 : ts = t :: ts2 := (Except.ok.inj h).symm
        subst h2
        simp only [rebuildList]
        rw [buildSeg_rebuild d t ht, buildList_rebuild ds ts2 hts2]
      · exact absurd h (by simp)
    · exact absurd h (by simp)

end

mutual

theorem dirCount_rebuild : ∀ t : RouteSegment, dirCount (rebuildDir t) = segCount t
  | .mk k n ts hs => by
    simp only [rebuildDir, dirCount, segCount]
    rw [dirCountList_rebuild ts]

theorem dirCountList_rebuild : ∀ ts : List RouteSegment,
    dirCountList (rebuildList ts) = segCountList ts
  | [] => rfl
  | t :: ts => by
    simp only [rebuildList, dirCountList, segCountList]
    rw [dirCount_rebuild t, dirCountList_rebuild ts]

end

/-- Claim C4: for every directory-naming input the builder accepts, the
built tree has exactly one segment per declared path component, and
traversing it from root to leaves reconstructs the original declared
directory description (and hence every declared root-to-leaf path). -/
theorem build_traverse_roundtrip (d : DirTree) (t : RouteSegment)
    (hb : buildSeg d = .ok t) :
    rebuildDir t = d ∧ segCount t = dirCount d := by
  have h1 := buildSeg_rebuild d t hb
  refine ⟨h1, ?_⟩
  rw [← h1, dirCount_rebuild]

/-- Claim C4 witness: the round trip instantiated on the example directory
description for `/`, `/users`, `/users/[id]`. -/
theorem build_traverse_roundtrip_witness :
    rebuildDir demoRoot = demoDir ∧ segCount demoRoot = dirCount demoDir :=
  build_traverse_roundtrip demoDir demoRoot (by rfl)

mutual

theorem buildSeg_ok_of_no_conflict : ∀ d : DirTree, ¬ dirHasConflict d →
    ∃ t, buildSeg d = .ok t
  | .node raw hs cs, hnc => by
    simp only [dirHasConflict] at hnc
    have hnd : (staticNames cs).Nodup := by
      by_contra hx
      exact hnc (Or.inl hx)
    have hlc : ¬ listHasConflict cs := fun hx => hnc (Or.inr hx)
    obtain ⟨ts, hts⟩ := buildList_ok_of_no_conflict cs hlc
    refine ⟨.mk (parseSeg raw).1 (parseSeg raw).2 ts hs, ?_⟩
    simp only [buildSeg]
    rw [if_pos hnd, hts]

theorem buildList_ok_of_no_conflict : ∀ ds : List DirTree, ¬ listHasConflict ds →
    ∃ ts, buildList ds = .ok ts
  | [], _ => ⟨[], rfl⟩
  | d :: ds, hnc => by
    simp only [listHasConflict] at hnc
    have h1 : ¬ dirHasConflict d := fun hx => hnc (Or.inl hx)
    have h2 : ¬ listHasConflict ds := fun hx => hnc (Or.inr hx)
    obtain ⟨t, ht⟩ := buildSeg_ok_of_no_conflict d h1
    obtain ⟨ts, hts⟩ := buildList_ok_of_no_conflict ds h2
    refine ⟨t :: ts, ?_⟩
    simp only [buildList]
    rw [ht, hts]

end

mutual

theorem buildSeg_conflict_error : ∀ d : DirTree, dirHasConflict d →
    buildSeg d = .error RouteError.ConflictingRoute
  | .node raw hs cs, hc => by
    simp only [dirHasConflict] at hc
    simp only [buildSeg]
    by_cases hnd : (staticNames cs).Nodup
    · rw [if_pos hnd]
      have hlc : listHasConflict cs := by
        rcases hc with h1 | h1
        · exact absurd hnd h1
        · exact h1
      rw [buildList_conflict_error cs hlc]
    · rw [if_neg hnd]

theorem buildList_conflict_error : ∀ ds : List DirTree, listHasConflict ds →
    buildList ds = .error RouteError.ConflictingRoute
  | [], hc => absurd hc (by simp [listHasConflict])
  | d :: ds, hc => by
    simp only [listHasConflict] at hc
    simp only [buildList]
    by_cases h1 : dirHasConflict d
    · rw [buildSeg_conflict_error d h1]
    · obtain ⟨t, ht⟩ := buildSeg_ok_of_no_conflict d h1
      rw [ht]
      have h2 : listHasConflict ds := by
        rcases hc with hx | hx
        · exact absurd hx h1
        · exact hx
      rw [buildList_conflict_error ds h2]

end

/-- Claim C6: a directory-naming input in which two sibling segments claim
the same static name is rejected by the route tree builder with the
`ConflictingRoute` error at build time, rather than producing a tree. -/
theorem conflicting_siblings_rejected (d : DirTree) (hc : dirHasConflict d) :
    buildSeg d = .error RouteError.ConflictingRoute :=
  buildSeg_conflict_error d hc

/-- Claim C6 witness: two sibling directories both named `users` are
rejected. -/
theorem conflicting_siblings_rejected_witness :
    buildSeg conflictDir = .error RouteError.ConflictingRoute :=
  conflicting_siblings_rejected conflictDir (Or.inl (by decide))

/-- Claim C9: the `UserLayout` component's rendered output contains its
`children` value exactly once, placed inside its inner div: it adds no
embedded values of its own, and an opaque `children` value occurs exactly
once in the output. -/
theorem user_layout_places_children_once :
    (∀ (α : Type) (c : Node α), countHole (UserLayout c) = countHole c) ∧
    (∀ (α : Type) (a : α), countHole (UserLayout (Node.hole a)) = 1) := by
  constructor
  · intro α c
    simp [UserLayout, countHole, countHoleList]
  · intro α a
    simp [UserLayout, countHole, countHoleList]

/-- Claim C10: the rendered output of `AboutPage` does not depend on the
posts fetched from the posts endpoint — any two fetched values produce the
same rendered node; the fetched posts influence only the server-side log. -/
theorem about_page_output_independent_of_posts :
    ∀ (α β : Type) (button : Node α) (p1 p2 : β),
      (AboutPage button p1).2 = (AboutPage button p2).2 := by
  intro α β button p1 p2
  rfl
